import Mathlib

/-!
Verification development for the atune change-detection and sync-dispatch
engine (src/sync.rs, src/config.rs).

Shallow embedding notes:
* Filesystem paths are modelled as lists of components from the root
  (`Path := List String`).  The spec guarantees that every rule source path
  is canonicalized before it reaches the core (main.rs canonicalizes at
  config load), so `std::fs::canonicalize` on a rule source is the identity
  in this model and ancestor matching is plain list equality.
* The `sync_files` loop (sync.rs, `fn sync_files`) is modelled by the trace
  of observable actions it performs: spawning an invocation child process,
  waiting for all tracked children, cancelling all tracked children, and
  sleeping for the debounce window.  The division of the incoming request
  stream into debounce windows depends on real time, so the input is taken
  to be an arbitrary list of batches, each batch being the list of changed
  paths received during one window (the first blocking `recv` plus the
  non-blocking drain after the sleep).
* Child processes exit at times chosen by the environment; a run is
  parameterized by a schedule `exits : Nat → Nat → Bool` saying which
  process ids exit spontaneously at which step, so theorems quantified over
  all schedules cover every execution and a concrete schedule exhibits one
  execution.
* The waiting and cancelling operations of `SyncProcesses` can themselves
  fail per child (`wait` returning `Err`, sync.rs lines 187-189; `try_wait`
  or `kill` returning `Err`, sync.rs lines 164-178); in every such case the
  drained entry is dropped while the child may still be running.  A second
  schedule `errs : Nat → Nat → Bool` chooses which of these calls fail; a
  child hit by such a failure moves from the tracked `live` set to the
  `leaked` set: untracked but possibly still running.
-/

namespace Atune

/-- A filesystem path, as its list of components from the filesystem root. -/
abbrev Path := List String

/-- A hook command, as used by `execute_sync` in sync.rs: the command text and
its per-hook continue-on-failure flag.  (The copy of config.rs in the tree
predates the flag; sync.rs reads `cmd.continue_on_failure`, which is the
shape specified in the data model section of the spec.) -/
structure CommandConfig where
  command : String
  continue_on_failure : Bool
deriving DecidableEq

/-- One sync rule as parsed for the core (`struct ParsedSync` in sync.rs). -/
structure ParsedSync where
  enabled : Bool
  src : Path
  recursive : Bool
  dst : Option Path
  rsync_flags : List String
  on_sync : List CommandConfig
  on_init : List CommandConfig
deriving DecidableEq

/-- The ancestor chain of a path, from the path itself up to the filesystem
root, mirroring `Path::ancestors` in Rust: `ancestors p` is
`[p, parent of p, ..., []]`.  (Defined by structural recursion on the first
component so that it computes; see `ancestors_eq_self_cons_dropLast` for the
drop-the-last-component recurrence the Rust iterator follows.) -/
def ancestors : Path → List Path
  | [] => [[]]
  | a :: rest => (ancestors rest).map (a :: ·) ++ [[]]

/-- Path-to-rule resolution (`path.ancestors().find(|a| files.contains_key(*a))`
in `sync_files`): the first, i.e. nearest, ancestor equal to a rule root. -/
def resolve (roots : List Path) (p : Path) : Option Path :=
  (ancestors p).find? (fun a => roots.contains a)

/-- Insertion with set semantics, mirroring `HashSet::insert`: a root already
present is not added again. -/
def batchInsert (batch : List Path) (a : Path) : List Path :=
  if a ∈ batch then batch else a :: batch

/-- One step of batch accumulation (`to_sync.insert(a.to_owned())` guarded by
the resolution): a resolved root is added to the pending batch with set
semantics, an unresolved event is discarded. -/
def processEvent (roots : List Path) (batch : List Path) (p : Path) : List Path :=
  match resolve roots p with
  | some a => batchInsert batch a
  | none => batch

/-- The pending batch accumulated from the changed paths of one debounce
window (the first received request plus everything drained after the sleep). -/
def collectBatch (roots : List Path) (evs : List Path) : List Path :=
  evs.foldl (processEvent roots) []

/-- Observable actions of the `sync_files` loop. -/
inductive Action
  /-- Spawn one sync invocation child (`cmd().arg(..).spawn()`), in
  initializing mode or not, for a given rule root. -/
  | spawn (initMode : Bool) (root : Path)
  /-- `SyncProcesses::wait`: block until every tracked child exits, drop them. -/
  | waitAll
  /-- `SyncProcesses::cancel`: kill and reap every tracked child, drop them. -/
  | cancelAll
  /-- `std::thread::sleep(debounce)`. -/
  | sleep
deriving DecidableEq

/-- Is this action an initializing-mode spawn? -/
def Action.isInitSpawn : Action → Bool
  | .spawn true _ => true
  | _ => false

/-- Is this action a non-initializing (watch-triggered) spawn? -/
def Action.isSyncSpawn : Action → Bool
  | .spawn false _ => true
  | _ => false

/-- The initial spawns of `sync_files`: one initializing invocation per rule
it receives, in list order, before the loop starts. -/
def initSpawns (files : List ParsedSync) : List Action :=
  files.map (fun f => Action.spawn true f.src)

/-- The canonical rule roots handed to resolution (the key set of the
`files` HashMap in `sync_files`; canonicalization is the identity here, see
the module comment). -/
def ruleRoots (files : List ParsedSync) : List Path :=
  files.map (·.src)

/-- The actions of one iteration of the `sync_files` loop, handling the
changed paths `b` of one debounce window: apply the restart policy
(cancel or wait), sleep for the window, then spawn one non-initializing
invocation per distinct resolved root of the batch. -/
def batchActions (roots : List Path) (restart : Bool) (b : List Path) : List Action :=
  (if restart then Action.cancelAll else Action.waitAll) ::
    Action.sleep :: (collectBatch roots b).map (Action.spawn false)

/-- The full action trace of `sync_files`: the initializing spawns, one
iteration per debounce window, and the implicit final `cancel` run by the
`Drop` impl of `SyncProcesses` when the loop terminates. -/
def syncFilesTrace (files : List ParsedSync) (restart : Bool)
    (batches : List (List Path)) : List Action :=
  initSpawns files ++ (batches.map (batchActions (ruleRoots files) restart)).flatten
    ++ [Action.cancelAll]

/-- The rules `watch_project` actually acts on: `sync.retain(|p| p.enabled)`. -/
def watchedRules (rules : List ParsedSync) : List ParsedSync :=
  rules.filter (·.enabled)

/-- The dispatch trace of a whole project: `watch_project` filters the rules
to the enabled ones, registers exactly those with the watcher, and hands
exactly those to `sync_files`. -/
def watchProjectTrace (rules : List ParsedSync) (restart : Bool)
    (batches : List (List Path)) : List Action :=
  syncFilesTrace (watchedRules rules) restart batches

/-- How many times a given root receives a non-initializing sync invocation
in a list of actions. -/
def countSyncSpawnsFor (tr : List Action) (r : Path) : Nat :=
  tr.count (Action.spawn false r)

/-- A tracked in-flight child process: its spawn id, the index of the
debounce window it was spawned in (0 = the initializing batch), its mode and
its rule root. -/
structure ProcEntry where
  pid : Nat
  batch : Nat
  initMode : Bool
  root : Path
deriving DecidableEq

/-- State of a run of the dispatch loop: the children tracked by
`SyncProcesses` and still running (`live`), the children that were drained
and dropped by a failed `wait`/`try_wait`/`kill` call while possibly still
running (`leaked`, the untracked leak exhibited for C5), the next spawn id,
and how many wait/cancel clears have happened (which numbers the batches). -/
structure RunState where
  live : List ProcEntry
  leaked : List ProcEntry
  nextId : Nat
  clears : Nat
deriving DecidableEq

/-- Effect of one action on the children, at step `k` under the error
schedule `errs`.  `waitAll` (`SyncProcesses::wait`) drains every tracked
child, blocking until it exits — unless its `wait` call fails (`errs`), in
which case the error is logged and the entry is dropped while the child may
still be running (it becomes leaked).  `cancelAll` (`SyncProcesses::cancel`)
likewise drains every tracked child, killing and reaping it — unless its
`try_wait` or `kill` call fails (`errs`), which again logs and drops the
possibly-still-running child. -/
def stepAction (errs : Nat → Nat → Bool) (k : Nat) (s : RunState) : Action → RunState
  | .spawn m r =>
      { s with live := s.live ++ [⟨s.nextId, s.clears, m, r⟩], nextId := s.nextId + 1 }
  | .waitAll =>
      { s with live := [],
               leaked := s.leaked ++ s.live.filter (fun e => errs k e.pid),
               clears := s.clears + 1 }
  | .cancelAll =>
      { s with live := [],
               leaked := s.leaked ++ s.live.filter (fun e => errs k e.pid),
               clears := s.clears + 1 }
  | .sleep => s

/-- Children may also exit on their own at any time; the schedule `exits`
says which process ids exit at step `k` (a leaked child may exit too). -/
def applyExits (exits : Nat → Nat → Bool) (k : Nat) (s : RunState) : RunState :=
  { s with live := s.live.filter (fun e => ! exits k e.pid),
           leaked := s.leaked.filter (fun e => ! exits k e.pid) }

/-- Run a list of actions from a state, applying scheduled spontaneous exits
after every step. -/
def runFrom (errs exits : Nat → Nat → Bool) :
    List Action → Nat → RunState → RunState
  | [], _, s => s
  | a :: rest, k, s =>
      runFrom errs exits rest (k + 1) (applyExits exits k (stepAction errs k s a))

/-- The initial run state: nothing live, nothing leaked, ids from 0, batch
number 0. -/
def initState : RunState := ⟨[], [], 0, 0⟩

/-- Run a whole trace. -/
def runTrace (errs exits : Nat → Nat → Bool) (tr : List Action) : RunState :=
  runFrom errs exits tr 0 initState

/-- The run state after the first `k` steps of a trace. -/
def runUpTo (errs exits : Nat → Nat → Bool) (tr : List Action) (k : Nat) : RunState :=
  runTrace errs exits (tr.take k)

/-- All children of the run that may still be running: the tracked ones and
the ones dropped untracked by a failed wait/kill. -/
def RunState.running (s : RunState) : List ProcEntry :=
  s.live ++ s.leaked

/-- All live children belong to the current debounce window: the invariant
behind batch-to-batch serialization. -/
def BatchHomog (s : RunState) : Prop :=
  ∀ e ∈ s.live, e.batch = s.clears

/-! ### Watch adapter event filtering (the `match ev.kind` in `watch_project`) -/

/-- Sub-kinds of a modification event, as delivered by the notify crate:
metadata-only changes arrive as `Modify(ModifyKind::Metadata(_))`. -/
inductive ModifyKind
  | any
  | data
  | metadata
  | name
  | other
deriving DecidableEq

/-- Top-level event kinds of the notify crate (payloads other than the
modify sub-kind are irrelevant to the filter and elided: the code matches
them with wildcards). -/
inductive EventKind
  | any
  | access
  | create
  | modify (k : ModifyKind)
  | remove
  | other
deriving DecidableEq

/-- A normalized filesystem event: a kind and the affected paths. -/
structure FsEvent where
  kind : EventKind
  paths : List Path

/-- The kinds the `watch_project` loop forwards
(`EventKind::Create(_) | EventKind::Modify(_) | EventKind::Remove(_)`). -/
def EventKind.isDispatched : EventKind → Bool
  | .create => true
  | .modify _ => true
  | .remove => true
  | _ => false

/-- The paths an event contributes to the debounce/sync stage: the
`watch_project` loop extends its path set and drains it into the
`SyncOneRequest` channel on a kind match, and skips the event otherwise. -/
def forwardedPaths (ev : FsEvent) : List Path :=
  match ev.kind with
  | .create => ev.paths
  | .modify _ => ev.paths
  | .remove => ev.paths
  | _ => []

/-! ### Process lifecycle manager (`SyncProcesses::cancel` / `::wait`) -/

/-- The behavior a tracked child process exhibits when `cancel` visits it:
whether it is still running at the non-blocking poll, and whether the
`try_wait`, `kill` and post-kill `wait` calls themselves succeed. -/
structure ChildProc where
  running : Bool
  tryWaitErr : Bool
  killOk : Bool
  waitOk : Bool
deriving DecidableEq

/-- What `SyncProcesses::cancel` does with one drained entry. -/
inductive CancelOutcome
  /-- `Ok(Some(_))`: the child had already exited; the entry is dropped. -/
  | droppedExited
  /-- `Ok(None)` then `kill` succeeded: the child is killed and then reaped
  by a blocking `wait` (whose own error, if any, is only logged). -/
  | killedReaped (waitOk : Bool)
  /-- `Ok(None)` then `kill` failed: the error is logged and the entry is
  dropped anyway. -/
  | killFailed
  /-- `try_wait` returned `Err`: the error is logged and the entry is
  dropped anyway. -/
  | tryWaitFailed
deriving DecidableEq

/-- The per-entry branch structure of `SyncProcesses::cancel`. -/
def cancelOne (p : ChildProc) : CancelOutcome :=
  if p.tryWaitErr then .tryWaitFailed
  else if !p.running then .droppedExited
  else if p.killOk then .killedReaped p.waitOk
  else .killFailed

/-- Whether the child is still running once `cancel` has visited it: only a
child that was running and escaped both the poll and the kill. -/
def stillRunningAfterCancel (p : ChildProc) : Bool :=
  p.running && (p.tryWaitErr || !p.killOk)

/-- `SyncProcesses::cancel` over the whole tracked collection: `drain(..)`
visits every entry in order, errors included. -/
def cancelOutcomes (ps : List ChildProc) : List CancelOutcome :=
  ps.map cancelOne

/-- The tracked collection after `cancel`: `drain(..)` leaves it empty. -/
def trackedAfterCancel (_ps : List ChildProc) : List ChildProc :=
  []

/-! ### Sync invocation hooks (`execute_sync`) -/

/-- Run a hook list the way `execute_sync` does: hooks in list order, a
failed command aborts the remaining hooks unless its
`continue_on_failure` flag is set, in which case the failure is only logged.
`exec` says which command texts exit successfully.  Returns the commands
actually run and whether the whole list counts as succeeded. -/
def runHooks (exec : String → Bool) : List CommandConfig → List String × Bool
  | [] => ([], true)
  | c :: rest =>
      if !exec c.command && !c.continue_on_failure then ([c.command], false)
      else (c.command :: (runHooks exec rest).1, (runHooks exec rest).2)

/-- The observable behavior of `execute_sync`: if the rule has a destination
the transfer must succeed or nothing else runs; in initializing mode the
`on_init` hooks run next and a fatal hook failure skips the `on_sync` hooks;
finally the `on_sync` hooks run.  Returns the hook commands run and overall
success. -/
def executeSyncRun (s : ParsedSync) (initMode : Bool) (rsyncOk : Bool)
    (exec : String → Bool) : List String × Bool :=
  if s.dst.isSome && !rsyncOk then ([], false)
  else
    let ri := if initMode then runHooks exec s.on_init else ([], true)
    if !ri.2 then (ri.1, false)
    else
      let rs := runHooks exec s.on_sync
      (ri.1 ++ rs.1, rs.2)

/-! ### Shutdown synchronization (`watch` / `watch_project` / `sync_files`)

`watch` (sync.rs) spawns one `watch_project` thread per project and keeps
its handle; `watch_project` spawns the `sync_files` dispatch thread and
drops its handle (the thread is detached).  On shutdown, `watch` sends the
cancel signal and joins the `watch_project` handles only.  The dispatch
thread learns of the shutdown only through the disconnection of the
`SyncOneRequest` channel, which happens when `watch_project` returns, and
only cleans up its children when it next observes that disconnection. -/

/-- Shutdown-time state of one project after the cancel signal was sent:
whether its `watch_project` loop has exited, whether the supervisor's join
over the project threads has returned, whether the detached dispatch thread
has run its final cleanup, and how many of its children are still running. -/
structure ShutdownState where
  watcherDone : Bool
  joinReturned : Bool
  cleanupDone : Bool
  liveChildren : Nat
deriving DecidableEq

/-- The schedulable events after the cancel signal is sent. -/
inductive ShutdownStep
  /-- The `watch_project` thread receives the cancel message, breaks its
  loop and returns (dropping the request-channel sender). -/
  | watcherExit
  /-- `watch` joins the project threads: it returns as soon as every
  `watch_project` thread is done — the dispatch thread is detached
  (its `JoinHandle` is dropped) and is not joined. -/
  | joinProjects
  /-- The detached dispatch thread observes the channel disconnection
  (possible only once `watch_project` has returned), breaks its loop, and
  its `SyncProcesses` drop cancels the remaining children. -/
  | dispatchCleanup
deriving DecidableEq

/-- Effect of one scheduled event. -/
def shutdownStep (s : ShutdownState) : ShutdownStep → ShutdownState
  | .watcherExit => { s with watcherDone := true }
  | .joinProjects => if s.watcherDone then { s with joinReturned := true } else s
  | .dispatchCleanup =>
      if s.watcherDone then { s with cleanupDone := true, liveChildren := 0 } else s

/-- Run a schedule of shutdown events. -/
def runShutdown (s : ShutdownState) : List ShutdownStep → ShutdownState
  | [] => s
  | a :: rest => runShutdown (shutdownStep s a) rest

/-- The shutdown starting point: nothing has reacted to the signal yet and
`n` children of the project are running. -/
def shutdownInit (n : Nat) : ShutdownState := ⟨false, false, false, n⟩

/-! ### Concrete configuration data used by witnesses and counterexamples -/

/-- A concrete enabled rule rooted at `/a`. -/
def ruleA : ParsedSync :=
  ⟨true, ["a"], true, some ["da"], [], [], []⟩

/-- A concrete enabled rule rooted at `/b`. -/
def ruleB : ParsedSync :=
  ⟨true, ["b"], true, some ["db"], [], [], []⟩

/-- A concrete disabled rule rooted at `/c`. -/
def ruleC : ParsedSync :=
  ⟨false, ["c"], true, some ["dc"], [], [], []⟩

end Atune

namespace Atune

/-- Sanity check: the ancestor chain of /a/b, nearest first. -/
theorem ancestors_sanity : ancestors ["a", "b"] = [["a", "b"], ["a"], []] := by decide

/-- Sanity check: /a/x resolves to the configured root /a. -/
theorem resolve_sanity : resolve [["a"]] ["a", "x"] = some ["a"] := by decide

/-- Sanity check: three events over two roots collapse to the two roots. -/
theorem collectBatch_sanity :
    collectBatch [["a"], ["b"]] [["a", "x"], ["a", "y"], ["b", "z"]]
      = [["b"], ["a"]] := by decide

/-! ### General lemmas -/

/-- The Rust iterator recurrence for `ancestors`: a nonempty path is followed
by the ancestors of the path with its last component dropped. -/
theorem ancestors_eq_self_cons_dropLast (p : Path) (h : p ≠ []) :
    ancestors p = p :: ancestors p.dropLast := by
  induction p with
  | nil => exact absurd rfl h
  | cons a rest ih =>
      cases rest with
      | nil => simp [ancestors]
      | cons b rest2 =>
          rw [ancestors, ih (by simp), List.dropLast_cons₂]
          simp [ancestors]

/-- A resolved root is one of the configured rule roots. -/
theorem resolve_mem_roots {roots : List Path} {p r : Path}
    (h : resolve roots p = some r) : r ∈ roots := by
  have hp := List.find?_some h
  simpa using hp

/-- `find?` returns the first element satisfying the predicate: everything
before it in the list fails the predicate. -/
theorem find?_first {α : Type} {q : α → Bool} :
    ∀ (l : List α) (a : α), l.find? q = some a →
      ∃ l₁ l₂, l = l₁ ++ a :: l₂ ∧ ∀ b ∈ l₁, q b = false
  | [], a, h => by simp at h
  | x :: xs, a, h => by
      by_cases hx : q x
      · rw [List.find?_cons_of_pos _ hx] at h
        exact ⟨[], xs, by simp [← Option.some_inj.mp h], by simp⟩
      · rw [List.find?_cons_of_neg _ hx] at h
        obtain ⟨l₁, l₂, hl, hfail⟩ := find?_first xs a h
        refine ⟨x :: l₁, l₂, by simp [hl], ?_⟩
        intro b hb
        rcases List.mem_cons.mp hb with rfl | hb
        · simpa using hx
        · exact hfail b hb

/-- Membership in a set-semantics insertion. -/
theorem mem_batchInsert (batch : List Path) (a r : Path) :
    r ∈ batchInsert batch a ↔ r = a ∨ r ∈ batch := by
  unfold batchInsert
  by_cases h : a ∈ batch
  · simp only [if_pos h]
    constructor
    · exact Or.inr
    · rintro (rfl | hr)
      · exact h
      · exact hr
  · simp [if_neg h]

/-- Set-semantics insertion preserves distinctness. -/
theorem nodup_batchInsert (batch : List Path) (a : Path) (h : batch.Nodup) :
    (batchInsert batch a).Nodup := by
  unfold batchInsert
  by_cases ha : a ∈ batch
  · simpa [if_pos ha] using h
  · simpa [if_neg ha, h] using ha

/-- Membership in a batch accumulated by folding `processEvent`. -/
theorem mem_foldl_processEvent (roots : List Path) :
    ∀ (evs : List Path) (acc : List Path) (r : Path),
      r ∈ evs.foldl (processEvent roots) acc ↔
        r ∈ acc ∨ ∃ p ∈ evs, resolve roots p = some r
  | [], acc, r => by simp
  | p :: evs, acc, r => by
      rw [List.foldl_cons, mem_foldl_processEvent roots evs]
      unfold processEvent
      cases h : resolve roots p with
      | none =>
          simp only [List.mem_cons]
          constructor
          · rintro (hr | hr)
            · exact Or.inl hr
            · exact Or.inr (by obtain ⟨q, hq, hres⟩ := hr; exact ⟨q, Or.inr hq, hres⟩)
          · rintro (hr | ⟨q, hq | hq, hres⟩)
            · exact Or.inl hr
            · rw [hq, h] at hres; cases hres
            · exact Or.inr ⟨q, hq, hres⟩
      | some a =>
          simp only [mem_batchInsert, List.mem_cons]
          constructor
          · rintro ((rfl | hr) | hr)
            · exact Or.inr ⟨p, Or.inl rfl, h⟩
            · exact Or.inl hr
            · exact Or.inr (by obtain ⟨q, hq, hres⟩ := hr; exact ⟨q, Or.inr hq, hres⟩)
          · rintro (hr | ⟨q, hq | hq, hres⟩)
            · exact Or.inl (Or.inr hr)
            · rw [hq, h] at hres
              exact Or.inl (Or.inl (Option.some_inj.mp hres).symm)
            · exact Or.inr ⟨q, hq, hres⟩

/-- Membership in the batch of one debounce window: exactly the roots some
changed path of the window resolves to. -/
theorem mem_collectBatch (roots : List Path) (evs : List Path) (r : Path) :
    r ∈ collectBatch roots evs ↔ ∃ p ∈ evs, resolve roots p = some r := by
  rw [collectBatch, mem_foldl_processEvent]
  simp

/-- Folding `processEvent` preserves distinctness of the batch. -/
theorem nodup_foldl_processEvent (roots : List Path) :
    ∀ (evs : List Path) (acc : List Path), acc.Nodup →
      (evs.foldl (processEvent roots) acc).Nodup
  | [], _, h => h
  | p :: evs, acc, h => by
      rw [List.foldl_cons]
      refine nodup_foldl_processEvent roots evs _ ?_
      unfold processEvent
      cases h2 : resolve roots p with
      | none => exact h
      | some a => exact nodup_batchInsert acc a h

/-- The pending batch has set semantics: a root appears at most once. -/
theorem nodup_collectBatch (roots : List Path) (evs : List Path) :
    (collectBatch roots evs).Nodup :=
  nodup_foldl_processEvent roots evs [] List.nodup_nil

/-- Counting the sync-spawn of a root in the spawns of a duplicate-free
batch: one if the root is in the batch, zero otherwise. -/
theorem count_spawn_map (r : Path) :
    ∀ l : List Path, l.Nodup →
      (l.map (Action.spawn false)).count (Action.spawn false r)
        = if r ∈ l then 1 else 0
  | [], _ => by simp
  | x :: l, h => by
      have hx := List.nodup_cons.mp h
      have ih := count_spawn_map r l hx.2
      simp only [List.map_cons, List.count_cons, ih]
      by_cases hxr : r = x
      · subst hxr
        simp [hx.1]
      · simp [hxr, Ne.symm hxr]

/-! ### Claim theorems -/

/-- C1: within one debounce window, the loop dispatches exactly one
non-initializing sync invocation for every root some changed path of the
window resolves to, and none for any other root — so N events for the same
root give one invocation and events for k distinct roots give one invocation
per root, the pending batch having set semantics. -/
theorem c1_debounce_coalescing (roots : List Path) (restart : Bool)
    (b : List Path) (r : Path) :
    countSyncSpawnsFor (batchActions roots restart b) r
      = if ∃ p ∈ b, resolve roots p = some r then 1 else 0 := by
  have hcount : countSyncSpawnsFor (batchActions roots restart b) r
      = ((collectBatch roots b).map (Action.spawn false)).count (Action.spawn false r) := by
    unfold countSyncSpawnsFor batchActions
    cases restart <;> simp [List.count_cons]
  rw [hcount, count_spawn_map r _ (nodup_collectBatch roots b)]
  by_cases hmem : r ∈ collectBatch roots b
  · rw [if_pos hmem, if_pos ((mem_collectBatch roots b r).mp hmem)]
  · rw [if_neg hmem,
      if_neg (fun hex => hmem ((mem_collectBatch roots b r).mpr hex))]

/-- C3 counterexample: a metadata-only modification is delivered by the
notify crate as `Modify(ModifyKind::Metadata)`, whose top-level kind the
watch loop matches, so its path IS forwarded to the debounce/sync stage —
the claim that metadata-only events are filtered out and never produce a
sync request is false. -/
theorem c3_metadata_forwarded_cex :
    forwardedPaths ⟨EventKind.modify ModifyKind.metadata, [["r", "f"]]⟩ = [["r", "f"]]
    ∧ (EventKind.modify ModifyKind.metadata).isDispatched = true :=
  ⟨rfl, rfl⟩

/-- C3 (amended): the watch loop forwards an event's paths to the
debounce/sync stage if and only if its top-level kind is Create, Modify or
Remove; Access, Any and Other events are filtered out.  Metadata-only
changes arrive as a Modify sub-kind and are therefore forwarded, not
filtered. -/
theorem c3_event_kind_filter (ev : FsEvent) (q : Path) :
    q ∈ forwardedPaths ev ↔ (ev.kind.isDispatched = true ∧ q ∈ ev.paths) := by
  cases ev with
  | mk k ps => cases k <;> simp [forwardedPaths, EventKind.isDispatched]

/-- C4: a changed path is resolved by walking its ancestor chain from the
path itself upward; the first (nearest) ancestor equal to a rule root is the
owner and is the root inserted into the pending batch, and if no ancestor
equals any rule root the event is discarded (the batch is unchanged). -/
theorem c4_nearest_ancestor_owns (roots batch : List Path) (p : Path) :
    (∀ r, resolve roots p = some r →
        r ∈ roots ∧
        (∃ l₁ l₂, ancestors p = l₁ ++ r :: l₂ ∧ ∀ b ∈ l₁, b ∉ roots) ∧
        processEvent roots batch p = batchInsert batch r)
  ∧ (resolve roots p = none →
        (∀ a ∈ ancestors p, a ∉ roots) ∧ processEvent roots batch p = batch) := by
  constructor
  · intro r h
    refine ⟨resolve_mem_roots h, ?_, ?_⟩
    · obtain ⟨l₁, l₂, hl, hfail⟩ := find?_first _ _ h
      refine ⟨l₁, l₂, hl, fun b hb hmem => ?_⟩
      have hb2 := hfail b hb
      simp [hmem] at hb2
    · unfold processEvent
      rw [h]
  · intro h
    constructor
    · intro a ha hmem
      have h2 := List.find?_eq_none.mp h a ha
      simp [hmem] at h2
    · unfold processEvent
      rw [h]

/-- C4 witness: at roots = [/a], a change to /a/x resolves to /a, which is a
configured root and is inserted into the batch. -/
theorem c4_nearest_ancestor_owns_witness :
    (["a"] : Path) ∈ ([["a"]] : List Path)
    ∧ processEvent [["a"]] [] ["a", "x"] = batchInsert [] ["a"] := by
  have h := (c4_nearest_ancestor_owns [["a"]] [] ["a", "x"]).1 ["a"] (by decide)
  exact ⟨h.1, h.2.2⟩

/-- C5 counterexample: a child that is still running and whose `kill` call
fails is drained from the tracked collection anyway — a still-running
process is left untracked, against the claim's final part. -/
theorem c5_kill_error_leak_cex :
    cancelOne ⟨true, false, false, true⟩ = CancelOutcome.killFailed
    ∧ stillRunningAfterCancel ⟨true, false, false, true⟩ = true
    ∧ trackedAfterCancel [⟨true, false, false, true⟩] = [] :=
  ⟨rfl, rfl, rfl⟩

/-- C5 (amended): `cancel` visits every tracked entry (errors included) and
empties the collection; an already-exited child is simply dropped; a running
child whose kill succeeds is killed and then reaped by a blocking wait (a
wait error being only logged), so it is no longer running afterwards.  A
child whose `try_wait` or `kill` call itself fails is dropped from tracking
even though it may still be running. -/
theorem c5_cancel_all_behavior (ps : List ChildProc) :
    (cancelOutcomes ps).length = ps.length
  ∧ trackedAfterCancel ps = []
  ∧ ∀ p ∈ ps,
      (p.tryWaitErr = false → p.running = false →
        cancelOne p = CancelOutcome.droppedExited)
    ∧ (p.tryWaitErr = false → p.running = true → p.killOk = true →
        cancelOne p = CancelOutcome.killedReaped p.waitOk)
    ∧ (p.tryWaitErr = false → p.killOk = true →
        stillRunningAfterCancel p = false) := by
  refine ⟨List.length_map ps cancelOne, rfl, ?_⟩
  intro p _
  refine ⟨?_, ?_, ?_⟩
  · intro h1 h2
    simp [cancelOne, h1, h2]
  · intro h1 h2 h3
    simp [cancelOne, h1, h2, h3]
  · intro h1 h3
    simp [stillRunningAfterCancel, h1, h3]

/-- C5 witness: an already-exited child is dropped without any kill. -/
theorem c5_cancel_all_behavior_witness :
    cancelOne ⟨false, false, true, true⟩ = CancelOutcome.droppedExited := by
  have h := (c5_cancel_all_behavior [⟨false, false, true, true⟩]).2.2
    ⟨false, false, true, true⟩ (by decide)
  exact h.1 rfl rfl

/-- `runHooks` runs a prefix of the hook command list, in list order. -/
theorem runHooks_ran_take (exec : String → Bool) :
    ∀ hooks : List CommandConfig,
      (runHooks exec hooks).1
        = (hooks.map (fun c => c.command)).take (runHooks exec hooks).1.length
  | [] => rfl
  | c :: rest => by
      unfold runHooks
      by_cases h1 : (!exec c.command && !c.continue_on_failure) = true
      · rw [if_pos h1]
        simp
      · rw [if_neg h1]
        simp only [List.map_cons, List.length_cons, List.take_succ_cons]
        exact congrArg (c.command :: ·) (runHooks_ran_take exec rest)

/-- Characterization of which hooks run: hook `i` runs exactly when every
hook before it either succeeded or carries `continue_on_failure`. -/
theorem runHooks_runs_iff (exec : String → Bool) :
    ∀ (hooks : List CommandConfig) (i : Nat) (hi : i < hooks.length),
      (i < (runHooks exec hooks).1.length ↔
        ∀ j (hj : j < i),
          exec (hooks.get ⟨j, Nat.lt_trans hj hi⟩).command = true
          ∨ (hooks.get ⟨j, Nat.lt_trans hj hi⟩).continue_on_failure = true)
  | [], i, hi => by simp at hi
  | c :: rest, i, hi => by
      unfold runHooks
      by_cases h1 : (!exec c.command && !c.continue_on_failure) = true
      · rw [if_pos h1]
        have hfail : exec c.command = false ∧ c.continue_on_failure = false := by
          constructor <;> [skip; skip] <;> revert h1 <;>
            cases hc : exec c.command <;> cases hcc : c.continue_on_failure <;> simp
        cases i with
        | zero => simp
        | succ i2 =>
            have hlen : (([c.command], false) : List String × Bool).1.length = 1 := rfl
            constructor
            · intro h
              rw [hlen] at h
              omega
            · intro hall
              have h0 := hall 0 (Nat.succ_pos i2)
              simp only [List.get] at h0
              rcases h0 with h0 | h0
              · rw [hfail.1] at h0
                cases h0
              · rw [hfail.2] at h0
                cases h0
      · rw [if_neg h1]
        have hok : exec c.command = true ∨ c.continue_on_failure = true := by
          revert h1
          cases hc : exec c.command <;> cases hcc : c.continue_on_failure <;> simp
        cases i with
        | zero =>
            simp only [List.length_cons]
            constructor
            · intro _ j hj
              exact absurd hj (Nat.not_lt_zero j)
            · intro _
              exact Nat.succ_pos _
        | succ i2 =>
            have hi2 : i2 < rest.length := Nat.lt_of_succ_lt_succ hi
            have ih := runHooks_runs_iff exec rest i2 hi2
            simp only [List.length_cons]
            constructor
            · intro h j hj
              cases j with
              | zero => exact hok
              | succ j2 =>
                  have hj2 : j2 < i2 := Nat.lt_of_succ_lt_succ hj
                  have h2 : i2 < (runHooks exec rest).1.length :=
                    Nat.lt_of_succ_lt_succ h
                  exact ih.mp h2 j2 hj2
            · intro hall
              refine Nat.succ_lt_succ (ih.mpr ?_)
              intro j2 hj2
              exact hall (j2 + 1) (Nat.succ_lt_succ hj2)

/-- The `sync_files` trace sleeps exactly once per debounce window: one loop
iteration per batch, whatever the children's exit statuses. -/
theorem count_sleep_trace (files : List ParsedSync) (restart : Bool) :
    ∀ batches : List (List Path),
      (syncFilesTrace files restart batches).count Action.sleep = batches.length := by
  have hinit : (initSpawns files).count Action.sleep = 0 := by
    rw [List.count_eq_zero]
    intro h
    rcases List.mem_map.mp h with ⟨f, _, hf⟩
    cases hf
  have hbatch : ∀ b, (batchActions (ruleRoots files) restart b).count Action.sleep = 1 := by
    intro b
    have hspawn : ((collectBatch (ruleRoots files) b).map (Action.spawn false)).count
        Action.sleep = 0 := by
      rw [List.count_eq_zero]
      intro h
      rcases List.mem_map.mp h with ⟨f, _, hf⟩
      cases hf
    cases restart <;> simp [batchActions, List.count_cons, hspawn]
  intro batches
  induction batches with
  | nil => simp [syncFilesTrace, List.count_append, hinit]
  | cons b bs ih =>
      have hexp : syncFilesTrace files restart (b :: bs)
          = initSpawns files ++ (batchActions (ruleRoots files) restart b
              ++ ((bs.map (batchActions (ruleRoots files) restart)).flatten
                  ++ [Action.cancelAll])) := by
        simp [syncFilesTrace]
      have hexp2 : syncFilesTrace files restart bs
          = initSpawns files ++ ((bs.map (batchActions (ruleRoots files) restart)).flatten
              ++ [Action.cancelAll]) := by
        simp [syncFilesTrace]
      rw [hexp2, List.count_append, List.count_append, hinit] at ih
      rw [hexp, List.count_append, List.count_append, List.count_append, hinit, hbatch]
      simp only [List.length_cons]
      omega

/-- C9: within one invocation, hooks run in list order (the commands run are
a prefix of the configured command list); hook `i` runs exactly when every
earlier hook either exited successfully or is marked `continue_on_failure`
(so a continuing failure is only logged and the next hook still runs, while
a non-continuing failure is fatal to the remaining hooks); and the watch
loop itself still processes every debounce window — one iteration per batch
— independently of any hook outcome. -/
theorem c9_hook_failure_policy (exec : String → Bool) (hooks : List CommandConfig)
    (i : Nat) (hi : i < hooks.length) (files : List ParsedSync) (restart : Bool)
    (batches : List (List Path)) :
    ((runHooks exec hooks).1
        = (hooks.map (fun c => c.command)).take (runHooks exec hooks).1.length)
  ∧ (i < (runHooks exec hooks).1.length ↔
      ∀ j (hj : j < i),
        exec (hooks.get ⟨j, Nat.lt_trans hj hi⟩).command = true
        ∨ (hooks.get ⟨j, Nat.lt_trans hj hi⟩).continue_on_failure = true)
  ∧ (syncFilesTrace files restart batches).count Action.sleep = batches.length :=
  ⟨runHooks_ran_take exec hooks, runHooks_runs_iff exec hooks i hi,
    count_sleep_trace files restart batches⟩

/-- C9 witness: with hooks [x, bad (continue), y] where only "bad" fails,
all three hooks run — the continuing failure does not stop hook y. -/
theorem c9_hook_failure_policy_witness :
    2 < (runHooks (fun s => !(s == "bad"))
        [⟨"x", false⟩, ⟨"bad", true⟩, ⟨"y", false⟩]).1.length := by
  have h := (c9_hook_failure_policy (fun s => !(s == "bad"))
      [⟨"x", false⟩, ⟨"bad", true⟩, ⟨"y", false⟩] 2 (by decide) [] false []).2.1
  exact h.mpr (by decide)

/-- A hook list all of whose commands succeed runs completely. -/
theorem runHooks_all_ok :
    ∀ hooks : List CommandConfig,
      runHooks (fun _ => true) hooks = (hooks.map (fun c => c.command), true)
  | [] => rfl
  | c :: rest => by simp [runHooks, runHooks_all_ok rest]

/-- Every initial spawn is an initializing one (and not a watch-triggered
one). -/
theorem initSpawns_all_init (files : List ParsedSync) :
    ∀ a ∈ initSpawns files, a.isInitSpawn = true ∧ a.isSyncSpawn = false := by
  intro a ha
  rcases List.mem_map.mp ha with ⟨f, _, rfl⟩
  exact ⟨rfl, rfl⟩

/-- Nothing the loop does after the initial spawns is an initializing
spawn. -/
theorem not_initSpawn_in_loop (roots : List Path) (restart : Bool)
    (batches : List (List Path)) :
    ∀ a ∈ (batches.map (batchActions roots restart)).flatten ++ [Action.cancelAll],
      a.isInitSpawn = false := by
  intro a ha
  rcases List.mem_append.mp ha with h | h
  · rcases List.mem_flatten.mp h with ⟨l, hl, hal⟩
    rcases List.mem_map.mp hl with ⟨b, _, rfl⟩
    unfold batchActions at hal
    rcases List.mem_cons.mp hal with rfl | hal
    · cases restart <;> rfl
    · rcases List.mem_cons.mp hal with rfl | hal
      · rfl
      · rcases List.mem_map.mp hal with ⟨r, _, rfl⟩
        rfl
  · rw [List.mem_singleton.mp h]
    rfl

/-- In a list split as `A ++ B` with no watch-triggered spawn in `A` and no
initializing spawn in `B`, every initializing spawn position precedes every
watch-triggered spawn position. -/
theorem init_before_sync_positions (L A B : List Action) (hL : L = A ++ B)
    (hA : ∀ a ∈ A, a.isSyncSpawn = false) (hB : ∀ a ∈ B, a.isInitSpawn = false)
    (i j : Nat) (hi : i < L.length) (hj : j < L.length)
    (h1 : (L.get ⟨i, hi⟩).isInitSpawn = true)
    (h2 : (L.get ⟨j, hj⟩).isSyncSpawn = true) : i < j := by
  subst hL
  by_contra hij
  push_neg at hij
  have hiA : i < A.length := by
    by_contra hge
    push_neg at hge
    rw [List.get_eq_getElem, List.getElem_append_right hge] at h1
    have hb : i - A.length < B.length := by
      have h3 := hi
      rw [List.length_append] at h3
      omega
    have hfalse := hB _ (List.getElem_mem hb)
    rw [hfalse] at h1
    cases h1
  have hjA : j < A.length := Nat.lt_of_le_of_lt hij hiA
  rw [List.get_eq_getElem, List.getElem_append_left hjA] at h2
  have hfalse := hA _ (List.getElem_mem hjA)
  rw [hfalse] at h2
  cases h2

/-- C8: on project start every enabled rule receives exactly one
initializing invocation (the trace's initializing spawns are precisely one
per enabled rule, in order); every initializing spawn precedes every
watch-triggered spawn of the project's trace; and an initializing invocation
runs the `on_init` hooks and then the `on_sync` hooks (shown here under an
all-successful execution), with no dependence on the destination's state. -/
theorem c8_init_once_before_watch (rules : List ParsedSync) (restart : Bool)
    (batches : List (List Path)) (s : ParsedSync) (i j : Nat)
    (hi : i < (watchProjectTrace rules restart batches).length)
    (hj : j < (watchProjectTrace rules restart batches).length) :
    ((watchProjectTrace rules restart batches).filter Action.isInitSpawn
        = (watchedRules rules).map (fun f => Action.spawn true f.src))
  ∧ (((watchProjectTrace rules restart batches).get ⟨i, hi⟩).isInitSpawn = true →
      ((watchProjectTrace rules restart batches).get ⟨j, hj⟩).isSyncSpawn = true →
      i < j)
  ∧ executeSyncRun s true true (fun _ => true)
      = ((s.on_init ++ s.on_sync).map (fun c => c.command), true) := by
  have htr : watchProjectTrace rules restart batches
      = initSpawns (watchedRules rules)
        ++ ((batches.map (batchActions (ruleRoots (watchedRules rules)) restart)).flatten
            ++ [Action.cancelAll]) := by
    simp [watchProjectTrace, syncFilesTrace]
  refine ⟨?_, ?_, ?_⟩
  · rw [htr, List.filter_append]
    have h1 : (initSpawns (watchedRules rules)).filter Action.isInitSpawn
        = initSpawns (watchedRules rules) :=
      List.filter_eq_self.mpr (fun a ha => (initSpawns_all_init _ a ha).1)
    have h2 : ((batches.map (batchActions (ruleRoots (watchedRules rules)) restart)).flatten
          ++ [Action.cancelAll]).filter Action.isInitSpawn = [] := by
      rw [List.filter_eq_nil_iff]
      intro a ha
      simp [not_initSpawn_in_loop _ _ _ a ha]
    rw [h1, h2, List.append_nil]
    rfl
  · exact init_before_sync_positions _ _ _ htr
      (fun a ha => (initSpawns_all_init _ a ha).2)
      (not_initSpawn_in_loop _ _ _) i j hi hj
  · simp [executeSyncRun, runHooks_all_ok]

/-- C8 witness: one project with an enabled and a disabled rule and one
batch: the initializing spawn (position 0) precedes the watch-triggered
spawn (position 3), and an initializing invocation runs the init hook, then
the sync hook. -/
theorem c8_init_once_before_watch_witness :
    (0 : Nat) < 3
    ∧ executeSyncRun ⟨true, ["a"], true, some ["d"], [], [⟨"s1", false⟩], [⟨"i1", false⟩]⟩
        true true (fun _ => true) = (["i1", "s1"], true) := by
  have h := c8_init_once_before_watch [ruleA, ruleC] false [[["a", "x"]]]
    ⟨true, ["a"], true, some ["d"], [], [⟨"s1", false⟩], [⟨"i1", false⟩]⟩
    0 3 (by decide) (by decide)
  exact ⟨h.2.1 (by decide) (by decide), h.2.2.trans (by decide)⟩

/-- Running an appended action list is running the parts in sequence. -/
theorem runFrom_append (errs exits : Nat → Nat → Bool) :
    ∀ (l1 l2 : List Action) (k : Nat) (s : RunState),
      runFrom errs exits (l1 ++ l2) k s
        = runFrom errs exits l2 (k + l1.length) (runFrom errs exits l1 k s)
  | [], l2, k, s => by simp [runFrom]
  | a :: l1, l2, k, s => by
      show runFrom errs exits (l1 ++ l2) (k + 1) (applyExits exits k (stepAction errs k s a))
          = runFrom errs exits l2 (k + (a :: l1).length)
              (runFrom errs exits l1 (k + 1) (applyExits exits k (stepAction errs k s a)))
      rw [runFrom_append errs exits l1 l2 (k + 1)]
      have harith : k + 1 + l1.length = k + (a :: l1).length := by
        rw [List.length_cons]
        omega
      rw [harith]

/-- `stepAction` preserves batch homogeneity of the tracked live set. -/
theorem stepAction_batchHomog (errs : Nat → Nat → Bool) (k : Nat) (s : RunState)
    (a : Action) (h : BatchHomog s) : BatchHomog (stepAction errs k s a) := by
  cases a with
  | spawn m r =>
      intro e he
      simp only [stepAction] at he ⊢
      rcases List.mem_append.mp he with he | he
      · exact h e he
      · rw [List.mem_singleton.mp he]
  | waitAll =>
      intro e he
      simp only [stepAction] at he
      simp at he
  | cancelAll =>
      intro e he
      simp only [stepAction] at he
      simp at he
  | sleep => exact h

/-- Spontaneous exits preserve batch homogeneity. -/
theorem applyExits_batchHomog (exits : Nat → Nat → Bool) (k : Nat) (s : RunState)
    (h : BatchHomog s) : BatchHomog (applyExits exits k s) := by
  intro e he
  simp only [applyExits] at he ⊢
  exact h e (List.mem_of_mem_filter he)

/-- Batch homogeneity of the tracked set is an invariant of the run, in
every execution (wait/kill errors included). -/
theorem runFrom_batchHomog (errs exits : Nat → Nat → Bool) :
    ∀ (l : List Action) (k : Nat) (s : RunState),
      BatchHomog s → BatchHomog (runFrom errs exits l k s)
  | [], _, _, h => h
  | a :: l, k, s, h =>
      runFrom_batchHomog errs exits l (k + 1) _
        (applyExits_batchHomog _ _ _ (stepAction_batchHomog errs k s a h))

/-- When no wait/try_wait/kill call fails, nothing is ever leaked: every
possibly-running child stays tracked. -/
theorem runFrom_noLeak (errs exits : Nat → Nat → Bool)
    (herr : ∀ k i, errs k i = false) :
    ∀ (l : List Action) (k : Nat) (s : RunState), s.leaked = [] →
      (runFrom errs exits l k s).leaked = []
  | [], _, _, h => h
  | a :: l, k, s, h => by
      refine runFrom_noLeak errs exits herr l (k + 1) _ ?_
      have hstep : (stepAction errs k s a).leaked = [] := by
        cases a with
        | spawn m r => exact h
        | waitAll =>
            simp only [stepAction, h, List.nil_append]
            rw [List.filter_eq_nil_iff]
            intro e _
            simp [herr]
        | cancelAll =>
            simp only [stepAction, h, List.nil_append]
            rw [List.filter_eq_nil_iff]
            intro e _
            simp [herr]
        | sleep => exact h
      simp only [applyExits, hstep, List.filter_nil]

/-- C2 counterexample: with `restart = false`, the two invocations for the
two distinct roots of one batch are spawned back to back — in the execution
where neither child exits on its own (and no wait call fails), both are in
flight simultaneously (two live non-initializing processes for roots /b and
/a), so two sync invocations of the same project do overlap in time. -/
theorem c2_same_batch_overlap_cex :
    ((runUpTo (fun _ _ => false) (fun _ _ => false)
        (syncFilesTrace [ruleA, ruleB] false [[["a", "x"], ["b", "y"]]]) 6).live.map
          (fun e => (e.initMode, e.root)))
      = [(false, ["b"]), (false, ["a"])] := by
  decide

/-- C2 (amended): with `restart_policy = false` the loop never cancels
(every clearing action inside the loop is a blocking wait, the only cancel
being the final cleanup), and in every execution in which the blocking
wait calls themselves succeed, at every instant all possibly-running
invocations of the project belong to the same debounce window — so an
invocation spawned for an earlier change completes before any invocation of
a later window begins, while invocations dispatched within the same window
may overlap.  (A failed `wait()` instead drops a possibly-still-running
child untracked, the leak analyzed for C5.) -/
theorem c2_wait_policy_serializes (files : List ParsedSync)
    (batches : List (List Path)) (errs exits : Nat → Nat → Bool) (k : Nat)
    (herr : ∀ n i, errs n i = false) :
    (∀ a ∈ initSpawns files
        ++ (batches.map (batchActions (ruleRoots files) false)).flatten,
        a ≠ Action.cancelAll)
  ∧ ∀ e1 ∈ (runUpTo errs exits (syncFilesTrace files false batches) k).running,
    ∀ e2 ∈ (runUpTo errs exits (syncFilesTrace files false batches) k).running,
      e1.batch = e2.batch := by
  constructor
  · intro a ha
    rcases List.mem_append.mp ha with h | h
    · rcases List.mem_map.mp h with ⟨f, _, rfl⟩
      intro hc
      cases hc
    · rcases List.mem_flatten.mp h with ⟨l, hl, hal⟩
      rcases List.mem_map.mp hl with ⟨b, _, rfl⟩
      unfold batchActions at hal
      rcases List.mem_cons.mp hal with rfl | hal
      · intro hc
        cases hc
      · rcases List.mem_cons.mp hal with rfl | hal
        · intro hc
          cases hc
        · rcases List.mem_map.mp hal with ⟨r, _, rfl⟩
          intro hc
          cases hc
  · have hh := runFrom_batchHomog errs exits
      ((syncFilesTrace files false batches).take k) 0 initState
      (by intro e he; simp [initState] at he)
    have hnl := runFrom_noLeak errs exits herr
      ((syncFilesTrace files false batches).take k) 0 initState rfl
    intro e1 h1 e2 h2
    rw [RunState.running, runUpTo, runTrace] at h1 h2
    rw [hnl, List.append_nil] at h1 h2
    have g1 := hh e1 h1
    have g2 := hh e2 h2
    rw [g1, g2]

/-- C2 witness: in a one-rule project with one batch, under the error-free
schedule, the in-loop clearing action is a blocking wait, not a cancel. -/
theorem c2_wait_policy_serializes_witness :
    Action.waitAll ≠ Action.cancelAll := by
  have h := (c2_wait_policy_serializes [ruleA] [[["a", "x"]]]
    (fun _ _ => false) (fun _ _ => false) 3 (fun _ _ => rfl)).1
  exact h Action.waitAll (by decide)

/-- C6 counterexample: in the execution where the final cleanup's `kill`
call fails for the initializing child of a one-rule project (sync.rs lines
164-167 log the error and drop the entry anyway), the loop has terminated,
the tracked set is empty, yet the child is untracked and possibly still
running — so the claim that no spawned child is left running after loop
termination is false. -/
theorem c6_kill_error_orphan_cex :
    ((runTrace (fun _ _ => true) (fun _ _ => false)
        (syncFilesTrace [ruleA] true [])).leaked.map (fun e => e.root)) = [["a"]]
    ∧ (runTrace (fun _ _ => true) (fun _ _ => false)
        (syncFilesTrace [ruleA] true [])).live = [] := by
  decide

/-- C6 (amended): on termination of the sync-dispatch loop (the normal exit
on channel disconnection is modelled; a panic unwinds through the same
`Drop`), the implicit cancel of `SyncProcesses` always runs last, the
tracked set is empty afterwards in every execution, and in every execution
in which the cleanup's `try_wait`/`kill`/`wait` calls succeed no spawned
child is left possibly running.  A child whose kill or wait call fails
during the session is dropped untracked and may outlive the loop. -/
theorem c6_cleanup_on_loop_termination (files : List ParsedSync) (restart : Bool)
    (batches : List (List Path)) (errs exits : Nat → Nat → Bool)
    (herr : ∀ k i, errs k i = false) :
    (syncFilesTrace files restart batches).getLast? = some Action.cancelAll
  ∧ (runTrace errs exits (syncFilesTrace files restart batches)).live = []
  ∧ (runTrace errs exits (syncFilesTrace files restart batches)).running = [] := by
  have hlive : (runTrace errs exits (syncFilesTrace files restart batches)).live = [] := by
    unfold runTrace syncFilesTrace
    rw [runFrom_append]
    simp [runFrom, stepAction, applyExits]
  have hleak : (runTrace errs exits (syncFilesTrace files restart batches)).leaked = [] :=
    runFrom_noLeak errs exits herr _ 0 initState rfl
  refine ⟨?_, hlive, ?_⟩
  · unfold syncFilesTrace
    exact List.getLast?_concat _
  · rw [RunState.running, hlive, hleak, List.append_nil]

/-- C6 witness: one rule, one batch, error-free execution: the trace ends in
the cleanup cancel and no child is left possibly running. -/
theorem c6_cleanup_on_loop_termination_witness :
    (syncFilesTrace [ruleA] true [[["a", "x"]]]).getLast? = some Action.cancelAll
    ∧ (runTrace (fun _ _ => false) (fun _ _ => false)
        (syncFilesTrace [ruleA] true [[["a", "x"]]])).running = [] := by
  have h := c6_cleanup_on_loop_termination [ruleA] true [[["a", "x"]]]
    (fun _ _ => false) (fun _ _ => false) (fun _ _ => rfl)
  exact ⟨h.1, h.2.2⟩

/-- Every spawn of the dispatch trace targets the source of one of the rules
handed to it. -/
theorem spawns_target_roots (files : List ParsedSync) (restart : Bool)
    (batches : List (List Path)) :
    ∀ a ∈ syncFilesTrace files restart batches, ∀ m root,
      a = Action.spawn m root → root ∈ ruleRoots files := by
  intro a ha m root heq
  subst heq
  unfold syncFilesTrace at ha
  rcases List.mem_append.mp ha with h | h
  · rcases List.mem_append.mp h with h | h
    · rcases List.mem_map.mp h with ⟨f, hf, hmap⟩
      injection hmap with hm hsrc
      rw [← hsrc]
      exact List.mem_map.mpr ⟨f, hf, rfl⟩
    · rcases List.mem_flatten.mp h with ⟨l, hl, hal⟩
      rcases List.mem_map.mp hl with ⟨b, _, rfl⟩
      unfold batchActions at hal
      rcases List.mem_cons.mp hal with heq2 | hal
      · revert heq2
        cases restart <;> intro heq2 <;> cases heq2
      · rcases List.mem_cons.mp hal with heq2 | hal
        · cases heq2
        · rcases List.mem_map.mp hal with ⟨r, hr, heq2⟩
          injection heq2 with hm hroot
          rw [← hroot]
          obtain ⟨p, _, hres⟩ := (mem_collectBatch _ b _).mp hr
          exact resolve_mem_roots hres
  · have h2 := List.mem_singleton.mp h
    cases h2

/-- C10: a disabled rule is inert: `watch_project` removes it before
registering watches and before handing rules to the dispatch loop, so it is
not among the watched rules; every invocation (initializing or
watch-triggered) the project ever spawns targets the source of some enabled
rule; and if no enabled rule shares the disabled rule's source, no
invocation is ever spawned for that source. -/
theorem c10_disabled_rule_inert (rules : List ParsedSync) (restart : Bool)
    (batches : List (List Path)) (r : ParsedSync) (hr : r.enabled = false) :
    r ∉ watchedRules rules
  ∧ (∀ a ∈ watchProjectTrace rules restart batches, ∀ m root,
        a = Action.spawn m root → root ∈ (watchedRules rules).map (fun f => f.src))
  ∧ (r.src ∉ (watchedRules rules).map (fun f => f.src) →
        ∀ a ∈ watchProjectTrace rules restart batches, ∀ m,
          a ≠ Action.spawn m r.src) := by
  have hsp := spawns_target_roots (watchedRules rules) restart batches
  refine ⟨?_, ?_, ?_⟩
  · intro hmem
    have h2 := (List.mem_filter.mp hmem).2
    rw [hr] at h2
    cases h2
  · intro a ha m root heq
    exact hsp a ha m root heq
  · intro hnot a ha m heq
    exact hnot (hsp a ha m r.src heq)

/-- C10 witness: the disabled rule /c of a two-rule project is not watched,
and the first trace action of the project is not an invocation of /c. -/
theorem c10_disabled_rule_inert_witness :
    ruleC ∉ watchedRules [ruleA, ruleC]
    ∧ (watchProjectTrace [ruleA, ruleC] false [[["c", "x"]]]).get ⟨0, by decide⟩
        ≠ Action.spawn false ["c"] := by
  have h := c10_disabled_rule_inert [ruleA, ruleC] false [[["c", "x"]]] ruleC rfl
  exact ⟨h.1, h.2.2 (by decide) _ (List.get_mem _ 0 (by decide)) false⟩

/-- C7: the claim fails on the code.  `watch` joins only the `watch_project`
threads; the `sync_files` dispatch thread is spawned detached (its handle is
dropped) and is never joined.  In the schedule where the watcher thread
receives the cancel signal and the supervisor joins it before the detached
dispatch thread observes the channel disconnection, the join has returned
while a child process of the project is still running and its cleanup has
not run. -/
theorem c7_join_returns_with_running_child :
    (runShutdown (shutdownInit 1)
        [ShutdownStep.watcherExit, ShutdownStep.joinProjects]).joinReturned = true
    ∧ (runShutdown (shutdownInit 1)
        [ShutdownStep.watcherExit, ShutdownStep.joinProjects]).liveChildren = 1
    ∧ (runShutdown (shutdownInit 1)
        [ShutdownStep.watcherExit, ShutdownStep.joinProjects]).cleanupDone = false := by
  decide

end Atune
